import Mathlib

/-!
Shallow embedding of src/Sources/file.c (CLibvenice): buffered channels over
non-blocking file descriptors.

Buffers are modelled by their valid byte regions: `ibuf` holds the bytes
`f->ibuf[f->ifirst .. f->ifirst + f->ilen)`, so the C field `f->ilen` is
`ibuf.length` here and `ifirst` is kept as an explicit cursor; `obuf` holds
`f->obuf[0 .. f->olen)`, so `f->olen` is `obuf.length`.  Bytes outside the
valid regions are never observed by any operation in the C code, so this
region view is an exact abstraction of the arrays.

The operating system is modelled by an environment list supplying, per loop
iteration, one syscall result together with the fdwait result that is used
only if fdwait is actually reached in that iteration.  When the list runs
out, a loop stops with the artificial outcome `Err.fuelOut`.  Every syscall
and every fdwait performed is recorded in an action trace, so that temporal
claims about when the scheduler is invoked are statements about the trace.
-/

namespace CLibvenice

/-- MILL_FILE_BUFLEN (file.c line 38): capacity of either buffer. -/
def BUFLEN : Nat := 4096

/-- Result of one read(2) syscall: `ok data` is a return of `data.length`
bytes (`ok []` is the zero-byte end-of-stream return), `eagain` is -1 with
EAGAIN or EWOULDBLOCK, `fail` is -1 with any other errno. -/
inductive RdRes where
  | ok (data : List Nat)
  | eagain
  | fail
deriving DecidableEq

/-- Result of one write(2) syscall: `ok sz` is a return of `sz` bytes. -/
inductive WrRes where
  | ok (sz : Nat)
  | eagain
  | fail
deriving DecidableEq

/-- Result of one fdwait call: 0 (deadline expired) or the readiness event
(FDW_IN / FDW_OUT, as asserted by the code). -/
inductive WaitRes where
  | timeout
  | ready
deriving DecidableEq

/-- Observable action of an operation: a syscall with the requested byte
count and its result, or an fdwait suspension request. -/
inductive Action where
  | sysRead (req : Nat) (res : RdRes)
  | sysWrite (req : Nat) (res : WrRes)
  | wait (res : WaitRes)
deriving DecidableEq

/-- The cause of an operation returning, one per return site of the C code:
`ok` is a completed return with errno = 0; `timedOut` is the
errno = ETIMEDOUT return taken when fdwait reported 0; `ioErr` is the
return taken when a syscall failed with an errno other than
EAGAIN/EWOULDBLOCK; `eos` is the return taken right after a read(2)
returned zero bytes; `fuelOut` is the model artifact of the environment
list running out mid-loop. -/
inductive Err where
  | ok
  | timedOut
  | ioErr
  | eos
  | fuelOut
deriving DecidableEq

/-- struct mill_file (file.c lines 41-50), with the two byte arrays
replaced by their valid regions and `mode` by the classification
`S_ISREG(mode) || S_ISDIR(mode)` which is all the code ever asks of it. -/
structure MillFile where
  ifirst : Nat
  ibuf : List Nat
  obuf : List Nat
  eof : Bool
  isReg : Bool
deriving DecidableEq

/-- The C field `f->ilen`. -/
def MillFile.ilen (f : MillFile) : Nat := f.ibuf.length

/-- The C field `f->olen`. -/
def MillFile.olen (f : MillFile) : Nat := f.obuf.length

/-- Environment entry for one iteration of a write loop. -/
structure WrIter where
  res : WrRes
  w : WaitRes
deriving DecidableEq

/-- Environment entry for one iteration of a read loop. -/
structure RdIter where
  res : RdRes
  w : WaitRes
deriving DecidableEq

/-- Outcome of a write loop. -/
structure WLoop where
  err : Err
  remaining : Nat
  tr : List Action
  env : List WrIter
deriving DecidableEq

/-- The direct write loop of filewrite (file.c lines 115-133) and the drain
loop of fileflush (lines 144-162): the two loop bodies are textually
identical; callers differ only in what they do with `remaining` at exit.
The `while(remaining)` test is the `remaining = 0` case. -/
def writeLoop (isReg : Bool) : Nat → List WrIter → WLoop
  | remaining, [] =>
    if remaining = 0 then ⟨Err.ok, 0, [], []⟩
    else ⟨Err.fuelOut, remaining, [], []⟩
  | remaining, it :: env =>
    if remaining = 0 then ⟨Err.ok, 0, [], it :: env⟩
    else
      match it.res with
      | WrRes.ok sz =>
        let r := writeLoop isReg (remaining - sz) env
        ⟨r.err, r.remaining, Action.sysWrite remaining (WrRes.ok sz) :: r.tr, r.env⟩
      | WrRes.eagain =>
        if isReg then
          -- regular file or directory: retry immediately, no fdwait
          let r := writeLoop isReg remaining env
          ⟨r.err, r.remaining, Action.sysWrite remaining WrRes.eagain :: r.tr, r.env⟩
        else
          match it.w with
          | WaitRes.timeout =>
            ⟨Err.timedOut, remaining,
              [Action.sysWrite remaining WrRes.eagain, Action.wait WaitRes.timeout], env⟩
          | WaitRes.ready =>
            let r := writeLoop isReg remaining env
            ⟨r.err, r.remaining,
              Action.sysWrite remaining WrRes.eagain :: Action.wait WaitRes.ready :: r.tr,
              r.env⟩
      | WrRes.fail => ⟨Err.ioErr, remaining, [Action.sysWrite remaining WrRes.fail], env⟩

/-- Outcome of fileflush. -/
structure FlushOut where
  f : MillFile
  err : Err
  tr : List Action
  env : List WrIter
deriving DecidableEq

/-- fileflush (file.c lines 137-165).  On a full drain `olen` is reset to
0; on timeout, I/O error or fuel exhaustion no buffer field is touched. -/
def fileflush (f : MillFile) (deadline : Int) (env : List WrIter) : FlushOut :=
  if f.obuf.length = 0 then ⟨f, Err.ok, [], env⟩
  else
    let r := writeLoop f.isReg f.obuf.length env
    if r.err = Err.ok then ⟨{ f with obuf := [] }, Err.ok, r.tr, r.env⟩
    else ⟨f, r.err, r.tr, r.env⟩

/-- Outcome of filewrite. -/
structure WriteOut where
  cnt : Nat
  f : MillFile
  err : Err
  tr : List Action
deriving DecidableEq

/-- filewrite (file.c lines 89-135).  Note the error return sites: a flush
failure returns 0 (line 101); an I/O error in the direct loop returns 0
(line 119); a timeout in the direct loop returns `len - remaining`
(line 126); completion returns `len` (line 134). -/
def filewrite (f : MillFile) (data : List Nat) (deadline : Int) (env : List WrIter) :
    WriteOut :=
  if f.obuf.length + data.length ≤ BUFLEN then
    ⟨data.length, { f with obuf := f.obuf ++ data }, Err.ok, []⟩
  else
    let fl := fileflush f deadline env
    if fl.err ≠ Err.ok then ⟨0, fl.f, fl.err, fl.tr⟩
    else if fl.f.obuf.length + data.length ≤ BUFLEN then
      ⟨data.length, { fl.f with obuf := fl.f.obuf ++ data }, Err.ok, fl.tr⟩
    else
      let r := writeLoop fl.f.isReg data.length fl.env
      match r.err with
      | Err.ok => ⟨data.length, fl.f, Err.ok, fl.tr ++ r.tr⟩
      | Err.timedOut => ⟨data.length - r.remaining, fl.f, Err.timedOut, fl.tr ++ r.tr⟩
      | Err.ioErr => ⟨0, fl.f, Err.ioErr, fl.tr ++ r.tr⟩
      | e => ⟨data.length - r.remaining, fl.f, e, fl.tr ++ r.tr⟩

/-- Outcome of a read loop: `acc` is everything copied into the caller's
buffer so far, `ifirst`/`ibuf` are the final input-buffer cursor and
region, `eof` records whether a zero-byte read occurred. -/
structure RLoop where
  err : Err
  remaining : Nat
  acc : List Nat
  ifirst : Nat
  ibuf : List Nat
  eof : Bool
  tr : List Action
  env : List RdIter
deriving DecidableEq

/-- The read loop of fileread (file.c lines 187-245).  The input buffer
region is empty throughout the loop (the caller drained it) and is
refilled only at the completing return of the small-read branch.  After a
short successful read or an EAGAIN, control falls through to the
regular-file check and, for other descriptors, to fdwait. -/
def readLoop (isReg : Bool) : Nat → List Nat → List RdIter → RLoop
  | remaining, acc, [] => ⟨Err.fuelOut, remaining, acc, 0, [], false, [], []⟩
  | remaining, acc, it :: env =>
    if BUFLEN < remaining then
      -- read(f->fd, pos, remaining), straight into the destination
      match it.res with
      | RdRes.ok d =>
        if d.length = 0 then
          ⟨Err.eos, remaining, acc, 0, [], true,
            [Action.sysRead remaining (RdRes.ok d)], env⟩
        else if d.length = remaining then
          ⟨Err.ok, 0, acc ++ d, 0, [], false,
            [Action.sysRead remaining (RdRes.ok d)], env⟩
        else
          if isReg then
            let r := readLoop isReg (remaining - d.length) (acc ++ d) env
            ⟨r.err, r.remaining, r.acc, r.ifirst, r.ibuf, r.eof,
              Action.sysRead remaining (RdRes.ok d) :: r.tr, r.env⟩
          else
            match it.w with
            | WaitRes.timeout =>
              ⟨Err.timedOut, remaining - d.length, acc ++ d, 0, [], false,
                [Action.sysRead remaining (RdRes.ok d), Action.wait WaitRes.timeout], env⟩
            | WaitRes.ready =>
              let r := readLoop isReg (remaining - d.length) (acc ++ d) env
              ⟨r.err, r.remaining, r.acc, r.ifirst, r.ibuf, r.eof,
                Action.sysRead remaining (RdRes.ok d) :: Action.wait WaitRes.ready :: r.tr,
                r.env⟩
      | RdRes.eagain =>
        -- sz = 0; 0 never equals remaining > BUFLEN, fall to fdwait
        if isReg then
          let r := readLoop isReg remaining acc env
          ⟨r.err, r.remaining, r.acc, r.ifirst, r.ibuf, r.eof,
            Action.sysRead remaining RdRes.eagain :: r.tr, r.env⟩
        else
          match it.w with
          | WaitRes.timeout =>
            ⟨Err.timedOut, remaining, acc, 0, [], false,
              [Action.sysRead remaining RdRes.eagain, Action.wait WaitRes.timeout], env⟩
          | WaitRes.ready =>
            let r := readLoop isReg remaining acc env
            ⟨r.err, r.remaining, r.acc, r.ifirst, r.ibuf, r.eof,
              Action.sysRead remaining RdRes.eagain :: Action.wait WaitRes.ready :: r.tr,
              r.env⟩
      | RdRes.fail =>
        ⟨Err.ioErr, remaining, acc, 0, [], false,
          [Action.sysRead remaining RdRes.fail], env⟩
    else
      -- read(f->fd, f->ibuf, MILL_FILE_BUFLEN)
      match it.res with
      | RdRes.ok d =>
        if d.length = 0 then
          ⟨Err.eos, remaining, acc, 0, [], true,
            [Action.sysRead BUFLEN (RdRes.ok d)], env⟩
        else if d.length < remaining then
          if isReg then
            let r := readLoop isReg (remaining - d.length) (acc ++ d) env
            ⟨r.err, r.remaining, r.acc, r.ifirst, r.ibuf, r.eof,
              Action.sysRead BUFLEN (RdRes.ok d) :: r.tr, r.env⟩
          else
            match it.w with
            | WaitRes.timeout =>
              ⟨Err.timedOut, remaining - d.length, acc ++ d, 0, [], false,
                [Action.sysRead BUFLEN (RdRes.ok d), Action.wait WaitRes.timeout], env⟩
            | WaitRes.ready =>
              let r := readLoop isReg (remaining - d.length) (acc ++ d) env
              ⟨r.err, r.remaining, r.acc, r.ifirst, r.ibuf, r.eof,
                Action.sysRead BUFLEN (RdRes.ok d) :: Action.wait WaitRes.ready :: r.tr,
                r.env⟩
        else
          ⟨Err.ok, 0, acc ++ d.take remaining, remaining, d.drop remaining, false,
            [Action.sysRead BUFLEN (RdRes.ok d)], env⟩
      | RdRes.eagain =>
        -- sz = 0 < remaining: clear the (already empty) buffer, fdwait
        if isReg then
          let r := readLoop isReg remaining acc env
          ⟨r.err, r.remaining, r.acc, r.ifirst, r.ibuf, r.eof,
            Action.sysRead BUFLEN RdRes.eagain :: r.tr, r.env⟩
        else
          match it.w with
          | WaitRes.timeout =>
            ⟨Err.timedOut, remaining, acc, 0, [], false,
              [Action.sysRead BUFLEN RdRes.eagain, Action.wait WaitRes.timeout], env⟩
          | WaitRes.ready =>
            let r := readLoop isReg remaining acc env
            ⟨r.err, r.remaining, r.acc, r.ifirst, r.ibuf, r.eof,
              Action.sysRead BUFLEN RdRes.eagain :: Action.wait WaitRes.ready :: r.tr,
              r.env⟩
      | RdRes.fail =>
        ⟨Err.ioErr, remaining, acc, 0, [], false,
          [Action.sysRead BUFLEN RdRes.fail], env⟩

/-- Outcome of fileread / filereadlh: `cnt` is the returned byte count and
`data` the bytes delivered into the caller's buffer. -/
structure ReadOut where
  cnt : Nat
  data : List Nat
  f : MillFile
  err : Err
  tr : List Action
deriving DecidableEq

/-- fileread (file.c lines 167-246). -/
def fileread (f : MillFile) (len : Nat) (deadline : Int) (env : List RdIter) : ReadOut :=
  if len ≤ f.ibuf.length then
    ⟨len, f.ibuf.take len,
      { f with ifirst := f.ifirst + len, ibuf := f.ibuf.drop len }, Err.ok, []⟩
  else
    let r := readLoop f.isReg (len - f.ibuf.length) f.ibuf env
    ⟨len - r.remaining, r.acc,
      { f with ifirst := r.ifirst, ibuf := r.ibuf, eof := f.eof || r.eof }, r.err, r.tr⟩

/-- Outcome of the filereadlh loop; `cnt` is the value returned. -/
structure LhLoop where
  err : Err
  cnt : Nat
  acc : List Nat
  ifirst : Nat
  ibuf : List Nat
  eof : Bool
  tr : List Action
  env : List RdIter
deriving DecidableEq

/-- The read loop of filereadlh (file.c lines 281-348). -/
def lhLoop (isReg : Bool) (lowwater highwater : Nat) :
    Nat → Nat → List Nat → List RdIter → LhLoop
  | _, received, acc, [] => ⟨Err.fuelOut, received, acc, 0, [], false, [], []⟩
  | remaining, received, acc, it :: env =>
    if BUFLEN < remaining then
      -- read(f->fd, pos, remaining), straight into the destination
      match it.res with
      | RdRes.ok d =>
        if d.length = 0 then
          ⟨Err.eos, received, acc, 0, [], true,
            [Action.sysRead remaining (RdRes.ok d)], env⟩
        else if lowwater ≤ received + d.length then
          ⟨Err.ok, received + d.length, acc ++ d, 0, [], false,
            [Action.sysRead remaining (RdRes.ok d)], env⟩
        else
          if isReg then
            let r := lhLoop isReg lowwater highwater
              (remaining - d.length) (received + d.length) (acc ++ d) env
            ⟨r.err, r.cnt, r.acc, r.ifirst, r.ibuf, r.eof,
              Action.sysRead remaining (RdRes.ok d) :: r.tr, r.env⟩
          else
            match it.w with
            | WaitRes.timeout =>
              ⟨Err.timedOut, received + d.length, acc ++ d, 0, [], false,
                [Action.sysRead remaining (RdRes.ok d), Action.wait WaitRes.timeout], env⟩
            | WaitRes.ready =>
              let r := lhLoop isReg lowwater highwater
                (remaining - d.length) (received + d.length) (acc ++ d) env
              ⟨r.err, r.cnt, r.acc, r.ifirst, r.ibuf, r.eof,
                Action.sysRead remaining (RdRes.ok d) :: Action.wait WaitRes.ready :: r.tr,
                r.env⟩
      | RdRes.eagain =>
        -- sz = 0; the lowwater test still runs on received + 0
        if lowwater ≤ received then
          ⟨Err.ok, received, acc, 0, [], false,
            [Action.sysRead remaining RdRes.eagain], env⟩
        else
          if isReg then
            let r := lhLoop isReg lowwater highwater remaining received acc env
            ⟨r.err, r.cnt, r.acc, r.ifirst, r.ibuf, r.eof,
              Action.sysRead remaining RdRes.eagain :: r.tr, r.env⟩
          else
            match it.w with
            | WaitRes.timeout =>
              ⟨Err.timedOut, received, acc, 0, [], false,
                [Action.sysRead remaining RdRes.eagain, Action.wait WaitRes.timeout], env⟩
            | WaitRes.ready =>
              let r := lhLoop isReg lowwater highwater remaining received acc env
              ⟨r.err, r.cnt, r.acc, r.ifirst, r.ibuf, r.eof,
                Action.sysRead remaining RdRes.eagain :: Action.wait WaitRes.ready :: r.tr,
                r.env⟩
      | RdRes.fail =>
        ⟨Err.ioErr, received, acc, 0, [], false,
          [Action.sysRead remaining RdRes.fail], env⟩
    else
      -- read(f->fd, f->ibuf, MILL_FILE_BUFLEN)
      match it.res with
      | RdRes.ok d =>
        if d.length = 0 then
          ⟨Err.eos, received, acc, 0, [], true,
            [Action.sysRead BUFLEN (RdRes.ok d)], env⟩
        else if received + d.length < lowwater then
          if isReg then
            let r := lhLoop isReg lowwater highwater
              (remaining - d.length) (received + d.length) (acc ++ d) env
            ⟨r.err, r.cnt, r.acc, r.ifirst, r.ibuf, r.eof,
              Action.sysRead BUFLEN (RdRes.ok d) :: r.tr, r.env⟩
          else
            match it.w with
            | WaitRes.timeout =>
              ⟨Err.timedOut, received + d.length, acc ++ d, 0, [], false,
                [Action.sysRead BUFLEN (RdRes.ok d), Action.wait WaitRes.timeout], env⟩
            | WaitRes.ready =>
              let r := lhLoop isReg lowwater highwater
                (remaining - d.length) (received + d.length) (acc ++ d) env
              ⟨r.err, r.cnt, r.acc, r.ifirst, r.ibuf, r.eof,
                Action.sysRead BUFLEN (RdRes.ok d) :: Action.wait WaitRes.ready :: r.tr,
                r.env⟩
        else if highwater < received + d.length then
          ⟨Err.ok, highwater, acc ++ d.take remaining, remaining, d.drop remaining, false,
            [Action.sysRead BUFLEN (RdRes.ok d)], env⟩
        else
          ⟨Err.ok, received + d.length, acc ++ d, 0, [], false,
            [Action.sysRead BUFLEN (RdRes.ok d)], env⟩
      | RdRes.eagain =>
        -- sz = 0, so the three-way test runs on received + 0
        if received < lowwater then
          if isReg then
            let r := lhLoop isReg lowwater highwater remaining received acc env
            ⟨r.err, r.cnt, r.acc, r.ifirst, r.ibuf, r.eof,
              Action.sysRead BUFLEN RdRes.eagain :: r.tr, r.env⟩
          else
            match it.w with
            | WaitRes.timeout =>
              ⟨Err.timedOut, received, acc, 0, [], false,
                [Action.sysRead BUFLEN RdRes.eagain, Action.wait WaitRes.timeout], env⟩
            | WaitRes.ready =>
              let r := lhLoop isReg lowwater highwater remaining received acc env
              ⟨r.err, r.cnt, r.acc, r.ifirst, r.ibuf, r.eof,
                Action.sysRead BUFLEN RdRes.eagain :: Action.wait WaitRes.ready :: r.tr,
                r.env⟩
        else if highwater < received then
          ⟨Err.ok, highwater, acc ++ List.take remaining ([] : List Nat), remaining, [],
            false, [Action.sysRead BUFLEN RdRes.eagain], env⟩
        else
          ⟨Err.ok, received, acc, 0, [], false,
            [Action.sysRead BUFLEN RdRes.eagain], env⟩
      | RdRes.fail =>
        ⟨Err.ioErr, received, acc, 0, [], false,
          [Action.sysRead BUFLEN RdRes.fail], env⟩

/-- filereadlh (file.c lines 248-349). -/
def filereadlh (f : MillFile) (lowwater highwater : Nat) (deadline : Int)
    (env : List RdIter) : ReadOut :=
  if lowwater ≤ f.ibuf.length ∧ f.ibuf.length ≤ highwater then
    ⟨f.ibuf.length, f.ibuf, { f with ifirst := 0, ibuf := [] }, Err.ok, []⟩
  else if highwater ≤ f.ibuf.length then
    ⟨highwater, f.ibuf.take highwater,
      { f with ifirst := f.ifirst + highwater, ibuf := f.ibuf.drop highwater },
      Err.ok, []⟩
  else
    let r := lhLoop f.isReg lowwater highwater
      (highwater - f.ibuf.length) f.ibuf.length f.ibuf env
    ⟨r.cnt, r.acc,
      { f with ifirst := r.ifirst, ibuf := r.ibuf, eof := f.eof || r.eof }, r.err, r.tr⟩

/-- fileopen (file.c lines 62-87), successful path; `isReg` stands for
`S_ISREG(mode) || S_ISDIR(mode)` captured from fstat. -/
def fileopen (isReg : Bool) : MillFile :=
  ⟨0, [], [], false, isReg⟩

/-- fileattach (file.c lines 360-373), successful path.  The C code never
initializes `f->eof` (nor `f->mode`): a fresh attached channel carries
whatever bytes malloc happened to return in those fields, passed in here
as the garbage parameters. -/
def fileattach (garbageEof : Bool) (garbageIsReg : Bool) : MillFile :=
  ⟨0, [], [], garbageEof, garbageIsReg⟩

/-- fileseek (file.c lines 385-391): both buffers discarded, eof cleared,
mode untouched. -/
def fileseek (f : MillFile) : MillFile :=
  { f with ifirst := 0, ibuf := [], obuf := [], eof := false }

/-- fileeof (file.c lines 404-406). -/
def fileeof (f : MillFile) : Bool := f.eof

/-! ### Trace predicates -/

/-- Is the action an fdwait suspension? -/
def isWaitA : Action → Bool
  | Action.wait _ => true
  | _ => false

/-- Is the action a syscall that reported would-block? -/
def isEagainA : Action → Bool
  | Action.sysRead _ RdRes.eagain => true
  | Action.sysWrite _ WrRes.eagain => true
  | _ => false

/-- Is the action a read syscall that transferred at least one byte? -/
def isReadTransfer : Action → Bool
  | Action.sysRead _ (RdRes.ok d) => decide (0 < d.length)
  | _ => false

/-- Is the action a write syscall? -/
def isWriteA : Action → Bool
  | Action.sysWrite _ _ => true
  | _ => false

/-- The actions after which the read loops may legitimately suspend: a
would-block result, or a successful read that transferred at least one
byte but did not complete the request. -/
def rdWaitP (a : Action) : Bool := isEagainA a || isReadTransfer a

/-- Every fdwait in the trace comes immediately after an action satisfying
`p`, and the trace does not start with an fdwait (`prev` is the preceding
action, if any). -/
def waitsOk (p : Action → Bool) : Option Action → List Action → Bool
  | _, [] => true
  | prev, Action.wait w :: rest =>
    (match prev with
     | some a => p a
     | none => false) && waitsOk p (some (Action.wait w)) rest
  | _, Action.sysRead req res :: rest => waitsOk p (some (Action.sysRead req res)) rest
  | _, Action.sysWrite req res :: rest => waitsOk p (some (Action.sysWrite req res)) rest

/-- The trace contains no fdwait at all. -/
def noWaits (tr : List Action) : Bool := tr.all (fun a => !(isWaitA a))

/-- Bytes transferred by the action, if it is a successful write syscall. -/
def wrSz : Action → Nat
  | Action.sysWrite _ (WrRes.ok sz) => sz
  | _ => 0

/-- Bytes transferred by the action, if it is a successful read syscall. -/
def rdSz : Action → Nat
  | Action.sysRead _ (RdRes.ok d) => d.length
  | _ => 0

/-- Total bytes transferred by successful write syscalls in the trace. -/
def writeTotal (tr : List Action) : Nat := (tr.map wrSz).sum

/-- Total bytes transferred by successful read syscalls in the trace. -/
def readTotal (tr : List Action) : Nat := (tr.map rdSz).sum

/-- A syscall never transfers more than was requested: what POSIX
guarantees of a real environment. -/
def wfAction : Action → Bool
  | Action.sysRead req (RdRes.ok d) => decide (d.length ≤ req)
  | Action.sysWrite req (WrRes.ok sz) => decide (sz ≤ req)
  | _ => true

/-- All syscalls in the trace obey the POSIX bound. -/
def wfTrace (tr : List Action) : Bool := tr.all wfAction

/-- The buffer invariants of the spec data model (spec section 3):
`inputStart + inputLength ≤ capacity` and `outputLength ≤ capacity`
(the two `0 ≤` halves hold by the Nat typing). -/
def Inv (f : MillFile) : Prop :=
  f.ifirst + f.ibuf.length ≤ BUFLEN ∧ f.obuf.length ≤ BUFLEN

instance (f : MillFile) : Decidable (Inv f) := by
  unfold Inv; infer_instance

/-! ### Write-side lemmas -/

/-- Accurate byte accounting of the write loop: in a POSIX-well-formed run,
`remaining` at exit plus the bytes the trace shows transferred equals the
initial `remaining`, for every exit cause. -/
theorem writeLoop_total (isReg : Bool) (env : List WrIter) :
    ∀ remaining : Nat,
      wfTrace (writeLoop isReg remaining env).tr = true →
      (writeLoop isReg remaining env).remaining
        + writeTotal (writeLoop isReg remaining env).tr = remaining := by
  induction env with
  | nil =>
    intro remaining _
    by_cases hr : remaining = 0 <;> simp [writeLoop, hr, writeTotal]
  | cons it env ih =>
    intro remaining h
    by_cases hr : remaining = 0
    · simp [writeLoop, hr, writeTotal]
    · rcases it with ⟨res, w⟩
      cases res with
      | ok sz =>
        simp only [writeLoop, if_neg hr] at h ⊢
        simp only [wfTrace, List.all_cons, Bool.and_eq_true, wfAction,
          decide_eq_true_eq] at h
        have h2 := ih (remaining - sz) h.2
        simp only [writeTotal, List.map_cons, List.sum_cons, wrSz] at h2 ⊢
        omega
      | eagain =>
        cases isReg with
        | true =>
          simp only [writeLoop, if_neg hr, if_true] at h ⊢
          simp only [wfTrace, List.all_cons, Bool.and_eq_true] at h
          have h2 := ih remaining h.2
          simp only [writeTotal, List.map_cons, List.sum_cons, wrSz] at h2 ⊢
          omega
        | false =>
          cases w with
          | timeout => simp [writeLoop, if_neg hr, writeTotal, wrSz]
          | ready =>
            simp only [writeLoop, if_neg hr, Bool.false_eq_true, if_false] at h ⊢
            simp only [wfTrace, List.all_cons, Bool.and_eq_true] at h
            have h2 := ih remaining h.2.2
            simp only [writeTotal, List.map_cons, List.sum_cons, wrSz] at h2 ⊢
            omega
      | fail => simp [writeLoop, if_neg hr, writeTotal, wrSz]

/-- In the write loop, fdwait is requested only immediately after a
would-block syscall result. -/
theorem writeLoop_waits (isReg : Bool) (p : Action → Bool)
    (hp : ∀ req, p (Action.sysWrite req WrRes.eagain) = true) (env : List WrIter) :
    ∀ (remaining : Nat) (prev : Option Action),
      waitsOk p prev (writeLoop isReg remaining env).tr = true := by
  induction env with
  | nil =>
    intro remaining prev
    by_cases hr : remaining = 0 <;> simp [writeLoop, hr, waitsOk]
  | cons it env ih =>
    intro remaining prev
    by_cases hr : remaining = 0
    · simp [writeLoop, hr, waitsOk]
    · rcases it with ⟨res, w⟩
      cases res with
      | ok sz =>
        simp only [writeLoop, if_neg hr]
        simp only [waitsOk]
        exact ih (remaining - sz) _
      | eagain =>
        cases isReg with
        | true =>
          simp only [writeLoop, if_neg hr, if_true, waitsOk]
          exact ih remaining _
        | false =>
          cases w with
          | timeout =>
            simp [writeLoop, if_neg hr, waitsOk, hp]
          | ready =>
            simp only [writeLoop, if_neg hr, Bool.false_eq_true, if_false, waitsOk]
            simp only [hp, Bool.true_and]
            exact ih remaining _
      | fail => simp [writeLoop, if_neg hr, waitsOk]

/-- On a regular-file or directory descriptor the write loop never
requests a suspension. -/
theorem writeLoop_noWaits (env : List WrIter) :
    ∀ remaining : Nat, noWaits (writeLoop true remaining env).tr = true := by
  induction env with
  | nil =>
    intro remaining
    by_cases hr : remaining = 0 <;> simp [writeLoop, hr, noWaits]
  | cons it env ih =>
    intro remaining
    by_cases hr : remaining = 0
    · simp [writeLoop, hr, noWaits]
    · rcases it with ⟨res, w⟩
      cases res with
      | ok sz =>
        simp only [writeLoop, if_neg hr, noWaits, List.all_cons, Bool.and_eq_true]
        exact ⟨rfl, ih (remaining - sz)⟩
      | eagain =>
        simp only [writeLoop, if_neg hr, if_true, noWaits, List.all_cons,
          Bool.and_eq_true]
        exact ⟨rfl, ih remaining⟩
      | fail => simp [writeLoop, if_neg hr, noWaits, isWaitA]

/-- A successful fileflush always leaves the output buffer empty. -/
theorem fileflush_ok_obuf (f : MillFile) (deadline : Int) (env : List WrIter) :
    (fileflush f deadline env).err = Err.ok → (fileflush f deadline env).f.obuf = [] := by
  unfold fileflush
  by_cases h0 : f.obuf.length = 0
  · simp [h0, List.length_eq_zero.mp h0]
  · simp only [h0, if_false]
    by_cases hok : (writeLoop f.isReg f.obuf.length env).err = Err.ok <;> simp [hok]

/-- An unsuccessful fileflush leaves the whole channel untouched. -/
theorem fileflush_not_ok (f : MillFile) (deadline : Int) (env : List WrIter) :
    (fileflush f deadline env).err ≠ Err.ok → (fileflush f deadline env).f = f := by
  unfold fileflush
  by_cases h0 : f.obuf.length = 0
  · simp [h0]
  · simp only [h0, if_false]
    by_cases hok : (writeLoop f.isReg f.obuf.length env).err = Err.ok <;> simp [hok]

/-- fileflush on an empty output buffer is a complete no-op. -/
theorem fileflush_empty (f : MillFile) (deadline : Int) (env : List WrIter)
    (h : f.obuf = []) : fileflush f deadline env = ⟨f, Err.ok, [], env⟩ := by
  simp [fileflush, h]

/-- The channel after fileflush: either untouched, or with the output
buffer emptied. -/
theorem fileflush_f_cases (f : MillFile) (deadline : Int) (env : List WrIter) :
    (fileflush f deadline env).f = f ∨
      (fileflush f deadline env).f = { f with obuf := [] } := by
  unfold fileflush
  by_cases h0 : f.obuf.length = 0
  · simp [h0]
  · simp only [h0, if_false]
    by_cases hok : (writeLoop f.isReg f.obuf.length env).err = Err.ok <;> simp [hok]

/-- Concrete direct-path run used for claim C1: the payload exceeds the
buffer, the first write(2) transfers one byte, the second fails hard;
filewrite hands back 0. -/
theorem filewrite_big_run (data : List Nat) (h : data.length = BUFLEN + 1) :
    filewrite (fileopen false) data 0
        [⟨WrRes.ok 1, WaitRes.ready⟩, ⟨WrRes.fail, WaitRes.ready⟩] =
      ⟨0, fileopen false, Err.ioErr,
        [Action.sysWrite (BUFLEN + 1) (WrRes.ok 1), Action.sysWrite BUFLEN WrRes.fail]⟩ := by
  simp [filewrite, fileflush, writeLoop, fileopen, h, BUFLEN]

/-- C1 counterexample: with a payload of BUFLEN + 1 bytes on an empty
output buffer, the environment lets the first write(2) transfer 1 byte and
makes the second fail with a non-would-block error; filewrite reports the
error but returns 0, not the partial count 1 that the claim demands. -/
theorem c1_counterexample :
    (filewrite (fileopen false) (List.replicate (BUFLEN + 1) 0) 0
        [⟨WrRes.ok 1, WaitRes.ready⟩, ⟨WrRes.fail, WaitRes.ready⟩]).err = Err.ioErr ∧
    writeTotal (filewrite (fileopen false) (List.replicate (BUFLEN + 1) 0) 0
        [⟨WrRes.ok 1, WaitRes.ready⟩, ⟨WrRes.fail, WaitRes.ready⟩]).tr = 1 ∧
    (filewrite (fileopen false) (List.replicate (BUFLEN + 1) 0) 0
        [⟨WrRes.ok 1, WaitRes.ready⟩, ⟨WrRes.fail, WaitRes.ready⟩]).cnt = 0 ∧
    ¬((filewrite (fileopen false) (List.replicate (BUFLEN + 1) 0) 0
        [⟨WrRes.ok 1, WaitRes.ready⟩, ⟨WrRes.fail, WaitRes.ready⟩]).cnt =
      writeTotal (filewrite (fileopen false) (List.replicate (BUFLEN + 1) 0) 0
        [⟨WrRes.ok 1, WaitRes.ready⟩, ⟨WrRes.fail, WaitRes.ready⟩]).tr) := by
  rw [filewrite_big_run (List.replicate (BUFLEN + 1) 0) (by simp)]
  simp [writeTotal, wrSz]

/-- C1 (amended): on the direct-write fallback path, an underlying write
error other than would-block makes filewrite return 0 together with that
error, regardless of how many payload bytes were already transferred; the
partial count is reported exactly on deadline expiry, and a completed
direct write returns the full length. -/
theorem c1_direct_write_error_returns_zero (f : MillFile) (data : List Nat)
    (deadline : Int) (env : List WrIter)
    (h0 : f.obuf = []) (hbig : BUFLEN < data.length) :
    ((filewrite f data deadline env).err = Err.ioErr →
      (filewrite f data deadline env).cnt = 0) ∧
    ((filewrite f data deadline env).err = Err.timedOut →
      wfTrace (filewrite f data deadline env).tr = true →
      (filewrite f data deadline env).cnt
        = writeTotal (filewrite f data deadline env).tr) ∧
    ((filewrite f data deadline env).err = Err.ok →
      (filewrite f data deadline env).cnt = data.length) := by
  have hfl := fileflush_empty f deadline env h0
  have hc : ¬(f.obuf.length + data.length ≤ BUFLEN) := by
    simp only [h0, List.length_nil, Nat.zero_add]
    omega
  simp only [filewrite, hfl, hc, if_false]
  rcases herr : (writeLoop f.isReg data.length env).err with _ | _ | _ | _ | _ <;>
    simp only [herr, ne_eq, not_true_eq_false, not_false_eq_true, if_true, if_false,
      List.nil_append] <;>
    simp_all
  · intro hwf
    have := writeLoop_total f.isReg env data.length (by simp_all)
    omega

/-- C1 witness: the amended theorem applied at the concrete failing run. -/
theorem c1_witness :
    (filewrite (fileopen false) (List.replicate (BUFLEN + 1) 0) 0
        [⟨WrRes.ok 1, WaitRes.ready⟩, ⟨WrRes.fail, WaitRes.ready⟩]).cnt = 0 :=
  (c1_direct_write_error_returns_zero (fileopen false) (List.replicate (BUFLEN + 1) 0) 0
      [⟨WrRes.ok 1, WaitRes.ready⟩, ⟨WrRes.fail, WaitRes.ready⟩]
      rfl (by rw [List.length_replicate]; exact Nat.lt_succ_self BUFLEN)).1
    (by rw [filewrite_big_run (List.replicate (BUFLEN + 1) 0) (by rw [List.length_replicate])])

/-- C2 counterexample: flushing two buffered bytes, one byte is physically
written, then the deadline expires; the claim demands that the buffer be
compacted to the one unsent byte, but the code leaves both bytes and
outputLength = 2 in place. -/
theorem c2_counterexample :
    (fileflush ⟨0, [], [10, 20], false, false⟩ 0
        [⟨WrRes.ok 1, WaitRes.ready⟩, ⟨WrRes.eagain, WaitRes.timeout⟩]).err
      = Err.timedOut ∧
    writeTotal (fileflush ⟨0, [], [10, 20], false, false⟩ 0
        [⟨WrRes.ok 1, WaitRes.ready⟩, ⟨WrRes.eagain, WaitRes.timeout⟩]).tr = 1 ∧
    (fileflush ⟨0, [], [10, 20], false, false⟩ 0
        [⟨WrRes.ok 1, WaitRes.ready⟩, ⟨WrRes.eagain, WaitRes.timeout⟩]).f.obuf
      = [10, 20] ∧
    ¬((fileflush ⟨0, [], [10, 20], false, false⟩ 0
        [⟨WrRes.ok 1, WaitRes.ready⟩, ⟨WrRes.eagain, WaitRes.timeout⟩]).f.obuf.length
      = 2 - writeTotal (fileflush ⟨0, [], [10, 20], false, false⟩ 0
        [⟨WrRes.ok 1, WaitRes.ready⟩, ⟨WrRes.eagain, WaitRes.timeout⟩]).tr) := by
  decide

/-- C2 (amended): a deadline expiry during fileflush leaves the channel,
and in particular the output buffer and outputLength, completely
unchanged: already-written bytes are not removed, so a future flush starts
over from the front of the buffer and resends them. -/
theorem c2_flush_timeout_keeps_buffer (f : MillFile) (deadline : Int)
    (env : List WrIter) (h : (fileflush f deadline env).err = Err.timedOut) :
    (fileflush f deadline env).f = f :=
  fileflush_not_ok f deadline env (by simp [h])

/-- C2 witness: the amended theorem at the concrete timed-out flush. -/
theorem c2_witness :
    (fileflush ⟨0, [], [30, 40, 50], false, false⟩ 0
        [⟨WrRes.ok 2, WaitRes.ready⟩, ⟨WrRes.eagain, WaitRes.timeout⟩]).err
      = Err.timedOut ∧
    (fileflush ⟨0, [], [30, 40, 50], false, false⟩ 0
        [⟨WrRes.ok 2, WaitRes.ready⟩, ⟨WrRes.eagain, WaitRes.timeout⟩]).f
      = ⟨0, [], [30, 40, 50], false, false⟩ :=
  ⟨by decide, c2_flush_timeout_keeps_buffer _ _ _ (by decide)⟩

/-- C7: a payload that fits in the free space of the output buffer is
copied there whole: outputLength grows by len(data), the call returns
len(data) with success, and the empty trace shows no descriptor syscall
occurred; in particular a payload of exactly BUFLEN bytes on an empty
buffer is fully accepted with zero (hence at most one) direct writes. -/
theorem c7_buffered_write (f : MillFile) (data : List Nat) (deadline : Int)
    (env : List WrIter) (h : f.obuf.length + data.length ≤ BUFLEN) :
    filewrite f data deadline env =
      ⟨data.length, { f with obuf := f.obuf ++ data }, Err.ok, []⟩ := by
  simp [filewrite, h]

/-- C7 witness: a payload of exactly BUFLEN bytes on an empty buffer. -/
theorem c7_witness :
    (fileopen false).obuf.length + (List.replicate BUFLEN 0).length ≤ BUFLEN ∧
    filewrite (fileopen false) (List.replicate BUFLEN 0) 0 [] =
      ⟨(List.replicate BUFLEN 0).length,
        { fileopen false with obuf := (fileopen false).obuf ++ List.replicate BUFLEN 0 },
        Err.ok, []⟩ :=
  ⟨by simp [fileopen], c7_buffered_write _ _ _ _ (by simp [fileopen])⟩

/-- C8: fileflush on an empty output buffer succeeds, performs no syscall
and changes nothing; and after any successful flush the buffer is empty,
so an immediately following flush is exactly such a no-op. -/
theorem c8_flush_idempotent (f : MillFile) (d1 d2 : Int) (e1 e2 : List WrIter) :
    (f.obuf = [] → fileflush f d1 e1 = ⟨f, Err.ok, [], e1⟩) ∧
    ((fileflush f d1 e1).err = Err.ok →
      fileflush (fileflush f d1 e1).f d2 e2 = ⟨(fileflush f d1 e1).f, Err.ok, [], e2⟩) := by
  refine ⟨fun h => fileflush_empty f d1 e1 h, fun h => ?_⟩
  exact fileflush_empty _ d2 e2 (fileflush_ok_obuf f d1 e1 h)

/-- C8 witness: a successful two-byte flush followed by a no-op flush. -/
theorem c8_witness :
    (fileflush ⟨0, [], [1, 2], false, false⟩ 0 [⟨WrRes.ok 2, WaitRes.ready⟩]).err
      = Err.ok ∧
    fileflush (fileflush ⟨0, [], [1, 2], false, false⟩ 0
        [⟨WrRes.ok 2, WaitRes.ready⟩]).f 0 [] =
      ⟨(fileflush ⟨0, [], [1, 2], false, false⟩ 0
        [⟨WrRes.ok 2, WaitRes.ready⟩]).f, Err.ok, [], []⟩ :=
  ⟨by decide,
    (c8_flush_idempotent ⟨0, [], [1, 2], false, false⟩ 0 0
      [⟨WrRes.ok 2, WaitRes.ready⟩] []).2 (by decide)⟩

/-! ### Read-side lemmas -/

/-- A read loop that exits with `Err.ok` has satisfied the full request. -/
theorem readLoop_ok_remaining (isReg : Bool) (env : List RdIter) :
    ∀ (remaining : Nat) (acc : List Nat),
      (readLoop isReg remaining acc env).err = Err.ok →
      (readLoop isReg remaining acc env).remaining = 0 := by
  induction env with
  | nil => intro remaining acc h; simp [readLoop] at h
  | cons it env ih =>
    intro remaining acc
    rcases it with ⟨res, w⟩
    cases res <;> cases w <;>
      simp only [readLoop] <;>
      (repeat' split) <;>
      first
        | exact ih _ _
        | simp_all

/-- A read loop that exits with `Err.eos` saw a zero-byte read and set the
end-of-stream flag. -/
theorem readLoop_eos_eof (isReg : Bool) (env : List RdIter) :
    ∀ (remaining : Nat) (acc : List Nat),
      (readLoop isReg remaining acc env).err = Err.eos →
      (readLoop isReg remaining acc env).eof = true := by
  induction env with
  | nil => intro remaining acc h; simp [readLoop] at h
  | cons it env ih =>
    intro remaining acc
    rcases it with ⟨res, w⟩
    cases res <;> cases w <;>
      simp only [readLoop] <;>
      (repeat' split) <;>
      first
        | exact ih _ _
        | simp_all

/-- In a POSIX-well-formed run the read loop leaves a legal input buffer:
the cursor plus the region length fit in the capacity. -/
theorem readLoop_inv (isReg : Bool) (env : List RdIter) :
    ∀ (remaining : Nat) (acc : List Nat),
      wfTrace (readLoop isReg remaining acc env).tr = true →
      (readLoop isReg remaining acc env).ifirst
        + (readLoop isReg remaining acc env).ibuf.length ≤ BUFLEN := by
  induction env with
  | nil => intro remaining acc _; simp [readLoop, BUFLEN]
  | cons it env ih =>
    intro remaining acc
    rcases it with ⟨res, w⟩
    cases res <;> cases w <;>
      simp only [readLoop] <;>
      (repeat' split) <;>
      intro h <;>
      first
        | (refine ih _ _ ?_;
           simp only [wfTrace, List.all_cons, Bool.and_eq_true] at h
           tauto)
        | (simp only [wfTrace, List.all_cons, List.all_nil, wfAction, Bool.and_eq_true,
             decide_eq_true_eq, and_true] at h
           simp only [List.length_drop, List.length_nil]
           omega)

/-- The read loop suspends only right after a would-block result or a
short successful read. -/
theorem readLoop_waits (isReg : Bool) (env : List RdIter) :
    ∀ (remaining : Nat) (acc : List Nat) (prev : Option Action),
      waitsOk rdWaitP prev (readLoop isReg remaining acc env).tr = true := by
  induction env with
  | nil => intro remaining acc prev; simp [readLoop, waitsOk]
  | cons it env ih =>
    intro remaining acc prev
    rcases it with ⟨res, w⟩
    cases res <;> cases w <;>
      simp only [readLoop] <;>
      (repeat' split) <;>
      simp_all [waitsOk, rdWaitP, isEagainA, isReadTransfer, List.length_pos]

/-- On a regular-file or directory descriptor the read loop never
requests a suspension. -/
theorem readLoop_noWaits (env : List RdIter) :
    ∀ (remaining : Nat) (acc : List Nat),
      noWaits (readLoop true remaining acc env).tr = true := by
  induction env with
  | nil => intro remaining acc; simp [readLoop, noWaits]
  | cons it env ih =>
    intro remaining acc
    rcases it with ⟨res, w⟩
    cases res <;> cases w <;>
      simp only [readLoop] <;>
      (repeat' split) <;>
      simp_all [noWaits, isWaitA] <;>
      exact ih _ _

/-- The read loop performs no write syscall. -/
theorem readLoop_noWrites (isReg : Bool) (env : List RdIter) :
    ∀ (remaining : Nat) (acc : List Nat),
      ((readLoop isReg remaining acc env).tr.all fun a => !(isWriteA a)) = true := by
  induction env with
  | nil => intro remaining acc; simp [readLoop]
  | cons it env ih =>
    intro remaining acc
    rcases it with ⟨res, w⟩
    cases res <;> cases w <;>
      simp only [readLoop] <;>
      (repeat' split) <;>
      simp_all [isWriteA] <;>
      exact ih _ _

/-- C3 counterexample: reading 1 byte while the underlying read(2) fails
with an errno other than EAGAIN/EWOULDBLOCK: the result is short (0 < 1),
yet no timeout is reported and the end-of-stream flag is not set — a third
condition the claim does not allow produces a short result. -/
theorem c3_counterexample :
    (fileread (fileopen false) 1 0 [⟨RdRes.fail, WaitRes.ready⟩]).cnt < 1 ∧
    (fileread (fileopen false) 1 0 [⟨RdRes.fail, WaitRes.ready⟩]).err ≠ Err.timedOut ∧
    (fileread (fileopen false) 1 0 [⟨RdRes.fail, WaitRes.ready⟩]).f.eof = false := by
  decide

/-- C3 (amended): fileread never returns more than `len` bytes; a return
with `Err.ok` is always the full `len` bytes, so a short result implies
end-of-stream, a timeout, or an underlying I/O error (or, in the model
only, environment exhaustion); and an end-of-stream return always leaves
the end-of-stream flag set. -/
theorem c3_short_read_causes (f : MillFile) (len : Nat) (deadline : Int)
    (env : List RdIter) :
    (fileread f len deadline env).cnt ≤ len ∧
    ((fileread f len deadline env).err = Err.ok →
      (fileread f len deadline env).cnt = len) ∧
    ((fileread f len deadline env).err = Err.eos →
      (fileread f len deadline env).f.eof = true) := by
  unfold fileread
  by_cases hb : len ≤ f.ibuf.length
  · simp [hb]
  · simp only [hb, if_false]
    refine ⟨Nat.sub_le _ _, fun hok => ?_, fun heos => ?_⟩
    · have := readLoop_ok_remaining f.isReg env (len - f.ibuf.length) f.ibuf (by simpa using hok)
      simp only [this, Nat.sub_zero]
    · have := readLoop_eos_eof f.isReg env (len - f.ibuf.length) f.ibuf (by simpa using heos)
      simp [this]

/-- C3 witness: the amended theorem at a concrete completed read. -/
theorem c3_witness :
    (fileread (fileopen false) 1 0 [⟨RdRes.ok [9], WaitRes.ready⟩]).cnt = 1 :=
  (c3_short_read_causes (fileopen false) 1 0 [⟨RdRes.ok [9], WaitRes.ready⟩]).2.1
    (by decide)

/-! ### Watermark-loop lemmas -/

/-- Watermark loop bookkeeping: under the entry invariant
`received + remaining = highwater` and sane watermarks, the loop never
hands back more than highwater bytes, a successful exit has reached
lowwater, the count plus what remains buffered equals the buffered bytes
drained before the loop plus every byte the trace shows read, and whenever
that total overshoots highwater the count is exactly highwater (the
overshoot branch of the code, file.c lines 324-330). -/
theorem lhLoop_main (isReg : Bool) (lw hw : Nat) (hlh : lw ≤ hw) (hhw : hw ≤ BUFLEN)
    (env : List RdIter) :
    ∀ (remaining received : Nat) (acc : List Nat), received + remaining = hw →
      (lhLoop isReg lw hw remaining received acc env).cnt ≤ hw ∧
      ((lhLoop isReg lw hw remaining received acc env).err = Err.ok →
        lw ≤ (lhLoop isReg lw hw remaining received acc env).cnt) ∧
      (lhLoop isReg lw hw remaining received acc env).cnt
          + (lhLoop isReg lw hw remaining received acc env).ibuf.length
        = received + readTotal (lhLoop isReg lw hw remaining received acc env).tr ∧
      (hw < received + readTotal (lhLoop isReg lw hw remaining received acc env).tr →
        (lhLoop isReg lw hw remaining received acc env).cnt = hw) := by
  induction env with
  | nil =>
    intro remaining received acc hinv
    simp only [lhLoop, readTotal, List.map_nil, List.sum_nil, List.length_nil]
    refine ⟨by omega, by simp, ?_, by omega⟩
    trivial
  | cons it env ih =>
    intro remaining received acc hinv
    have hnb : ¬(BUFLEN < remaining) := by omega
    rcases it with ⟨res, w⟩
    cases res with
    | ok d =>
      simp only [lhLoop, if_neg hnb]
      by_cases hd0 : d.length = 0
      · simp only [if_pos hd0, readTotal, List.map_cons, List.map_nil, List.sum_cons,
          List.sum_nil, rdSz, List.length_nil]
        exact ⟨by omega, by simp, by omega, by omega⟩
      · simp only [if_neg hd0]
        by_cases hlo : received + d.length < lw
        · simp only [if_pos hlo]
          by_cases hreg : isReg = true
          · simp only [if_pos hreg]
            have hr := ih (remaining - d.length) (received + d.length) (acc ++ d) (by omega)
            simp only [readTotal, List.map_cons, List.sum_cons, rdSz] at hr ⊢
            exact ⟨hr.1, hr.2.1, by omega, fun h4 => hr.2.2.2 (by omega)⟩
          · simp only [if_neg hreg]
            cases w with
            | timeout =>
              simp only [readTotal, List.map_cons, List.map_nil, List.sum_cons,
                List.sum_nil, rdSz, List.length_nil]
              exact ⟨by omega, by simp, by omega, by omega⟩
            | ready =>
              have hr := ih (remaining - d.length) (received + d.length) (acc ++ d) (by omega)
              simp only [readTotal, List.map_cons, List.sum_cons, rdSz] at hr ⊢
              exact ⟨hr.1, hr.2.1, by omega, fun h4 => hr.2.2.2 (by omega)⟩
        · simp only [if_neg hlo]
          by_cases hhi : hw < received + d.length
          · simp only [if_pos hhi, readTotal, List.map_cons, List.map_nil,
              List.sum_cons, List.sum_nil, rdSz, List.length_drop]
            exact ⟨le_refl hw, fun _ => hlh, by omega, fun _ => trivial⟩
          · simp only [if_neg hhi, readTotal, List.map_cons, List.map_nil,
              List.sum_cons, List.sum_nil, rdSz, List.length_nil]
            exact ⟨by omega, fun _ => by omega, by omega, by omega⟩
    | eagain =>
      simp only [lhLoop, if_neg hnb]
      by_cases hlo : received < lw
      · simp only [if_pos hlo]
        by_cases hreg : isReg = true
        · simp only [if_pos hreg]
          have hr := ih remaining received acc hinv
          simp only [readTotal, List.map_cons, List.sum_cons, rdSz] at hr ⊢
          exact ⟨hr.1, hr.2.1, by omega, fun h4 => hr.2.2.2 (by omega)⟩
        · simp only [if_neg hreg]
          cases w with
          | timeout =>
            simp only [readTotal, List.map_cons, List.map_nil, List.sum_cons,
              List.sum_nil, rdSz, List.length_nil]
            exact ⟨by omega, by simp, by omega, by omega⟩
          | ready =>
            have hr := ih remaining received acc hinv
            simp only [readTotal, List.map_cons, List.sum_cons, rdSz] at hr ⊢
            exact ⟨hr.1, hr.2.1, by omega, fun h4 => hr.2.2.2 (by omega)⟩
      · simp only [if_neg hlo]
        by_cases hhi : hw < received
        · simp only [if_pos hhi, readTotal, List.map_cons, List.map_nil,
            List.sum_cons, List.sum_nil, rdSz, List.length_nil]
          exact ⟨le_refl hw, fun _ => hlh, by omega, fun _ => trivial⟩
        · simp only [if_neg hhi, readTotal, List.map_cons, List.map_nil,
            List.sum_cons, List.sum_nil, rdSz, List.length_nil]
          exact ⟨by omega, fun _ => by omega, by omega, by omega⟩
    | fail =>
      simp only [lhLoop, if_neg hnb, readTotal, List.map_cons, List.map_nil,
        List.sum_cons, List.sum_nil, rdSz, List.length_nil]
      exact ⟨by omega, by simp, by omega, by omega⟩

/-- A watermark loop that exits with `Err.eos` saw a zero-byte read and
set the end-of-stream flag. -/
theorem lhLoop_eos_eof (isReg : Bool) (lw hw : Nat) (env : List RdIter) :
    ∀ (remaining received : Nat) (acc : List Nat),
      (lhLoop isReg lw hw remaining received acc env).err = Err.eos →
      (lhLoop isReg lw hw remaining received acc env).eof = true := by
  induction env with
  | nil => intro remaining received acc h; simp [lhLoop] at h
  | cons it env ih =>
    intro remaining received acc
    rcases it with ⟨res, w⟩
    cases res <;> cases w <;>
      simp only [lhLoop] <;>
      (repeat' split) <;>
      first
        | exact ih _ _ _
        | simp_all

/-- In a POSIX-well-formed run the watermark loop leaves a legal input
buffer. -/
theorem lhLoop_inv (isReg : Bool) (lw hw : Nat) (env : List RdIter) :
    ∀ (remaining received : Nat) (acc : List Nat),
      wfTrace (lhLoop isReg lw hw remaining received acc env).tr = true →
      (lhLoop isReg lw hw remaining received acc env).ifirst
        + (lhLoop isReg lw hw remaining received acc env).ibuf.length ≤ BUFLEN := by
  induction env with
  | nil => intro remaining received acc _; simp [lhLoop]
  | cons it env ih =>
    intro remaining received acc
    rcases it with ⟨res, w⟩
    cases res <;> cases w <;>
      simp only [lhLoop] <;>
      (repeat' split) <;>
      intro h <;>
      first
        | (refine ih _ _ _ ?_;
           simp only [wfTrace, List.all_cons, Bool.and_eq_true] at h
           tauto)
        | (simp only [wfTrace, List.all_cons, List.all_nil, wfAction, Bool.and_eq_true,
             decide_eq_true_eq, and_true] at h
           simp only [List.length_drop, List.length_nil]
           omega)

/-- The watermark loop suspends only right after a would-block result or a
short successful read. -/
theorem lhLoop_waits (isReg : Bool) (lw hw : Nat) (env : List RdIter) :
    ∀ (remaining received : Nat) (acc : List Nat) (prev : Option Action),
      waitsOk rdWaitP prev (lhLoop isReg lw hw remaining received acc env).tr = true := by
  induction env with
  | nil => intro remaining received acc prev; simp [lhLoop, waitsOk]
  | cons it env ih =>
    intro remaining received acc prev
    rcases it with ⟨res, w⟩
    cases res <;> cases w <;>
      simp only [lhLoop] <;>
      (repeat' split) <;>
      simp_all [waitsOk, rdWaitP, isEagainA, isReadTransfer, List.length_pos]

/-- On a regular-file or directory descriptor the watermark loop never
requests a suspension. -/
theorem lhLoop_noWaits (lw hw : Nat) (env : List RdIter) :
    ∀ (remaining received : Nat) (acc : List Nat),
      noWaits (lhLoop true lw hw remaining received acc env).tr = true := by
  induction env with
  | nil => intro remaining received acc; simp [lhLoop, noWaits]
  | cons it env ih =>
    intro remaining received acc
    rcases it with ⟨res, w⟩
    cases res <;> cases w <;>
      simp only [lhLoop] <;>
      (repeat' split) <;>
      simp_all [noWaits, isWaitA] <;>
      exact ih _ _ _

set_option maxHeartbeats 2000000 in
/-- The watermark loop performs no write syscall. -/
theorem lhLoop_noWrites (isReg : Bool) (lw hw : Nat) (env : List RdIter) :
    ∀ (remaining received : Nat) (acc : List Nat),
      ((lhLoop isReg lw hw remaining received acc env).tr.all
        fun a => !(isWriteA a)) = true := by
  induction env with
  | nil => intro remaining received acc; simp [lhLoop]
  | cons it env ih =>
    intro remaining received acc
    rcases it with ⟨res, w⟩
    cases res <;> cases w <;>
      simp only [lhLoop] <;>
      (repeat' split) <;>
      simp_all [isWriteA] <;>
      exact ih _ _ _

/-- C4 counterexample: with lowWater = 1 ≤ highWater = 2 ≤ capacity, an
underlying I/O error makes readWatermark return 0 < lowWater bytes even
though neither end-of-stream nor a timeout occurred. -/
theorem c4_counterexample :
    1 ≤ 2 ∧ 2 ≤ BUFLEN ∧
    (filereadlh (fileopen false) 1 2 0 [⟨RdRes.fail, WaitRes.ready⟩]).err
      ≠ Err.timedOut ∧
    (filereadlh (fileopen false) 1 2 0 [⟨RdRes.fail, WaitRes.ready⟩]).f.eof = false ∧
    (filereadlh (fileopen false) 1 2 0 [⟨RdRes.fail, WaitRes.ready⟩]).cnt < 1 := by
  decide

/-- C4 (amended): for lowWater ≤ highWater ≤ capacity, readWatermark
returns at most highWater bytes; absent end-of-stream, timeout, underlying
I/O error (and model fuel exhaustion) — that is, on an `Err.ok` return —
it returns at least lowWater bytes; the returned count plus what stays in
the input buffer equals what was buffered plus everything read; and
whenever the bytes that became available (buffered plus read) exceed
highWater — in particular when a single underlying read pushes the
accumulated amount past highWater — exactly highWater bytes are returned
and the excess is retained in the input buffer. -/
theorem c4_watermark_bounds (f : MillFile) (lw hw : Nat) (deadline : Int)
    (env : List RdIter) (hlh : lw ≤ hw) (hhw : hw ≤ BUFLEN) :
    (filereadlh f lw hw deadline env).cnt ≤ hw ∧
    ((filereadlh f lw hw deadline env).err = Err.ok →
      lw ≤ (filereadlh f lw hw deadline env).cnt) ∧
    (filereadlh f lw hw deadline env).cnt
        + (filereadlh f lw hw deadline env).f.ibuf.length
      = f.ibuf.length + readTotal (filereadlh f lw hw deadline env).tr ∧
    (hw < f.ibuf.length + readTotal (filereadlh f lw hw deadline env).tr →
      (filereadlh f lw hw deadline env).cnt = hw) ∧
    (hw < f.ibuf.length + readTotal (filereadlh f lw hw deadline env).tr →
      (filereadlh f lw hw deadline env).f.ibuf.length
        = f.ibuf.length + readTotal (filereadlh f lw hw deadline env).tr - hw) := by
  unfold filereadlh
  by_cases h1 : lw ≤ f.ibuf.length ∧ f.ibuf.length ≤ hw
  · rw [if_pos h1]
    refine ⟨h1.2, fun _ => h1.1, ?_, ?_, ?_⟩
    · simp [readTotal]
    · simp only [readTotal, List.map_nil, List.sum_nil]
      omega
    · simp only [readTotal, List.map_nil, List.sum_nil, List.length_nil]
      omega
  · rw [if_neg h1]
    by_cases h2 : hw ≤ f.ibuf.length
    · rw [if_pos h2]
      refine ⟨le_refl hw, fun _ => hlh, ?_, fun _ => rfl, ?_⟩
      · simp only [readTotal, List.map_nil, List.sum_nil, List.length_drop]
        omega
      · simp only [readTotal, List.map_nil, List.sum_nil, List.length_drop]
        omega
    · rw [if_neg h2]
      have hr := lhLoop_main f.isReg lw hw hlh hhw env
        (hw - f.ibuf.length) f.ibuf.length f.ibuf (by omega)
      refine ⟨hr.1, hr.2.1, hr.2.2.1, hr.2.2.2, fun h => ?_⟩
      have h3 := hr.2.2.1
      have h4 := hr.2.2.2 h
      show (lhLoop f.isReg lw hw (hw - f.ibuf.length) f.ibuf.length f.ibuf env).ibuf.length
        = f.ibuf.length
          + readTotal (lhLoop f.isReg lw hw (hw - f.ibuf.length) f.ibuf.length f.ibuf env).tr
          - hw
      omega

/-- C4 witness: the amended theorem at a run whose single read overshoots
highWater = 2 (3 bytes become available): exactly 2 bytes are returned and
1 byte is retained. -/
theorem c4_witness :
    (1 ≤ 2 ∧ 2 ≤ BUFLEN ∧
      2 < (fileopen false).ibuf.length
        + readTotal (filereadlh (fileopen false) 1 2 0
            [⟨RdRes.ok [7, 8, 9], WaitRes.ready⟩]).tr) ∧
    (filereadlh (fileopen false) 1 2 0 [⟨RdRes.ok [7, 8, 9], WaitRes.ready⟩]).cnt = 2 ∧
    (filereadlh (fileopen false) 1 2 0
        [⟨RdRes.ok [7, 8, 9], WaitRes.ready⟩]).f.ibuf.length
      = (fileopen false).ibuf.length
        + readTotal (filereadlh (fileopen false) 1 2 0
            [⟨RdRes.ok [7, 8, 9], WaitRes.ready⟩]).tr - 2 :=
  ⟨⟨by decide, by decide, by decide⟩,
    (c4_watermark_bounds (fileopen false) 1 2 0 [⟨RdRes.ok [7, 8, 9], WaitRes.ready⟩]
        (by decide) (by decide)).2.2.2.1 (by decide),
    (c4_watermark_bounds (fileopen false) 1 2 0 [⟨RdRes.ok [7, 8, 9], WaitRes.ready⟩]
        (by decide) (by decide)).2.2.2.2 (by decide)⟩

/-! ### Suspension discipline -/

/-- waitsOk survives appending a trace that itself satisfies waitsOk
under every predecessor. -/
theorem waitsOk_append (p : Action → Bool) (t2 : List Action)
    (h2 : ∀ prev, waitsOk p prev t2 = true) :
    ∀ (t1 : List Action) (prev : Option Action),
      waitsOk p prev t1 = true → waitsOk p prev (t1 ++ t2) = true := by
  intro t1
  induction t1 with
  | nil => intro prev _; exact h2 prev
  | cons a t1 ih =>
    intro prev h
    cases a with
    | wait w =>
      simp only [List.cons_append, waitsOk, Bool.and_eq_true] at h ⊢
      exact ⟨h.1, ih _ h.2⟩
    | sysRead req res =>
      simp only [List.cons_append, waitsOk] at h ⊢
      exact ih _ h
    | sysWrite req res =>
      simp only [List.cons_append, waitsOk] at h ⊢
      exact ih _ h

/-- fileflush suspends only right after a would-block write result. -/
theorem fileflush_waits (f : MillFile) (dl : Int) (env : List WrIter) :
    ∀ prev, waitsOk isEagainA prev (fileflush f dl env).tr = true := by
  intro prev
  unfold fileflush
  by_cases h0 : f.obuf.length = 0
  · rw [if_pos h0]; rfl
  · rw [if_neg h0]
    by_cases hok : (writeLoop f.isReg f.obuf.length env).err = Err.ok
    · rw [if_pos hok]
      exact writeLoop_waits f.isReg isEagainA (fun req => rfl) env f.obuf.length prev
    · rw [if_neg hok]
      exact writeLoop_waits f.isReg isEagainA (fun req => rfl) env f.obuf.length prev

/-- fileflush does not change the descriptor classification. -/
theorem fileflush_isReg (f : MillFile) (dl : Int) (env : List WrIter) :
    (fileflush f dl env).f.isReg = f.isReg := by
  rcases fileflush_f_cases f dl env with h | h <;> rw [h]

/-- On a regular-file or directory descriptor fileflush never suspends. -/
theorem fileflush_noWaits (f : MillFile) (dl : Int) (env : List WrIter)
    (hreg : f.isReg = true) : noWaits (fileflush f dl env).tr = true := by
  unfold fileflush
  by_cases h0 : f.obuf.length = 0
  · rw [if_pos h0]; rfl
  · rw [if_neg h0]
    by_cases hok : (writeLoop f.isReg f.obuf.length env).err = Err.ok
    · rw [if_pos hok, hreg]
      exact writeLoop_noWaits env f.obuf.length
    · rw [if_neg hok, hreg]
      exact writeLoop_noWaits env f.obuf.length

/-- The trace of filewrite is empty, the flush trace, or the flush trace
followed by the direct loop's trace. -/
theorem filewrite_tr_cases (f : MillFile) (data : List Nat) (dl : Int)
    (env : List WrIter) :
    (filewrite f data dl env).tr = [] ∨
    (filewrite f data dl env).tr = (fileflush f dl env).tr ∨
    (filewrite f data dl env).tr
      = (fileflush f dl env).tr
        ++ (writeLoop (fileflush f dl env).f.isReg data.length
              (fileflush f dl env).env).tr := by
  unfold filewrite
  by_cases h1 : f.obuf.length + data.length ≤ BUFLEN
  · rw [if_pos h1]; exact Or.inl rfl
  · rw [if_neg h1]
    by_cases hfe : (fileflush f dl env).err ≠ Err.ok
    · rw [if_pos hfe]; exact Or.inr (Or.inl rfl)
    · rw [if_neg hfe]
      by_cases h2 : (fileflush f dl env).f.obuf.length + data.length ≤ BUFLEN
      · rw [if_pos h2]; exact Or.inr (Or.inl rfl)
      · rw [if_neg h2]
        cases herr : (writeLoop (fileflush f dl env).f.isReg data.length
            (fileflush f dl env).env).err <;>
          simp only [herr] <;> exact Or.inr (Or.inr trivial)

/-- filewrite suspends only right after a would-block write result. -/
theorem filewrite_waits (f : MillFile) (data : List Nat) (dl : Int)
    (env : List WrIter) :
    ∀ prev, waitsOk isEagainA prev (filewrite f data dl env).tr = true := by
  intro prev
  rcases filewrite_tr_cases f data dl env with h | h | h <;> rw [h]
  · rfl
  · exact fileflush_waits f dl env prev
  · exact waitsOk_append isEagainA _
      (fun prev2 => writeLoop_waits _ isEagainA (fun req => rfl) _ _ prev2) _ prev
      (fileflush_waits f dl env prev)

/-- On a regular-file or directory descriptor filewrite never suspends. -/
theorem filewrite_noWaits (f : MillFile) (data : List Nat) (dl : Int)
    (env : List WrIter) (hreg : f.isReg = true) :
    noWaits (filewrite f data dl env).tr = true := by
  rcases filewrite_tr_cases f data dl env with h | h | h <;> rw [h]
  · rfl
  · exact fileflush_noWaits f dl env hreg
  · simp only [noWaits, List.all_append, Bool.and_eq_true]
    refine ⟨fileflush_noWaits f dl env hreg, ?_⟩
    rw [fileflush_isReg f dl env, hreg]
    exact writeLoop_noWaits _ _

/-- C5 counterexample: on a non-regular descriptor, fileread of 2 bytes
where the first read(2) transfers 1 byte is immediately followed by an
fdwait suspension, although the syscall neither reported would-block nor
completed with an error — so suspension does not happen only after
would-block, and a syscall transferring a byte IS followed by a
suspension. -/
theorem c5_counterexample :
    (fileread (fileopen false) 2 0
      [⟨RdRes.ok [5], WaitRes.ready⟩, ⟨RdRes.ok [7], WaitRes.ready⟩]).tr =
      [Action.sysRead BUFLEN (RdRes.ok [5]), Action.wait WaitRes.ready,
        Action.sysRead BUFLEN (RdRes.ok [7])] ∧
    waitsOk isEagainA none (fileread (fileopen false) 2 0
      [⟨RdRes.ok [5], WaitRes.ready⟩, ⟨RdRes.ok [7], WaitRes.ready⟩]).tr = false ∧
    isReadTransfer (Action.sysRead BUFLEN (RdRes.ok [5])) = true := by
  decide

/-- C5 (amended): in the write and flush loops, fdwait is requested only
immediately after a would-block syscall result (a write transferring at
least one byte is never followed by a suspension before the next syscall);
in the read and readWatermark loops, fdwait is requested only immediately
after a read syscall that either reported would-block or transferred at
least one byte without completing the request; and on regular-file or
directory descriptors no operation ever requests a suspension. -/
theorem c5_wait_discipline (f : MillFile) (data : List Nat) (len lw hw : Nat)
    (dl : Int) (ew ef : List WrIter) (er el : List RdIter) :
    waitsOk isEagainA none (filewrite f data dl ew).tr = true ∧
    waitsOk isEagainA none (fileflush f dl ef).tr = true ∧
    waitsOk rdWaitP none (fileread f len dl er).tr = true ∧
    waitsOk rdWaitP none (filereadlh f lw hw dl el).tr = true ∧
    (f.isReg = true →
      noWaits (filewrite f data dl ew).tr = true ∧
      noWaits (fileflush f dl ef).tr = true ∧
      noWaits (fileread f len dl er).tr = true ∧
      noWaits (filereadlh f lw hw dl el).tr = true) := by
  refine ⟨filewrite_waits f data dl ew none, fileflush_waits f dl ef none, ?_, ?_,
    fun hreg => ⟨filewrite_noWaits f data dl ew hreg, fileflush_noWaits f dl ef hreg,
      ?_, ?_⟩⟩
  · unfold fileread
    by_cases hb : len ≤ f.ibuf.length
    · rw [if_pos hb]; rfl
    · rw [if_neg hb]
      exact readLoop_waits f.isReg er _ _ none
  · unfold filereadlh
    by_cases h1 : lw ≤ f.ibuf.length ∧ f.ibuf.length ≤ hw
    · rw [if_pos h1]; rfl
    · rw [if_neg h1]
      by_cases h2 : hw ≤ f.ibuf.length
      · rw [if_pos h2]; rfl
      · rw [if_neg h2]
        exact lhLoop_waits f.isReg lw hw el _ _ _ none
  · unfold fileread
    by_cases hb : len ≤ f.ibuf.length
    · rw [if_pos hb]; rfl
    · rw [if_neg hb, hreg]
      exact readLoop_noWaits er _ _
  · unfold filereadlh
    by_cases h1 : lw ≤ f.ibuf.length ∧ f.ibuf.length ≤ hw
    · rw [if_pos h1]; rfl
    · rw [if_neg h1]
      by_cases h2 : hw ≤ f.ibuf.length
      · rw [if_pos h2]; rfl
      · rw [if_neg h2, hreg]
        exact lhLoop_noWaits lw hw el _ _ _

/-- C5 witness: the amended theorem at a regular-file channel, whose read
performs no suspension at all. -/
theorem c5_witness :
    (fileopen true).isReg = true ∧
    noWaits (fileread (fileopen true) 1 0 [⟨RdRes.eagain, WaitRes.ready⟩]).tr = true :=
  ⟨rfl,
    ((c5_wait_discipline (fileopen true) [] 1 0 0 0 [] []
        [⟨RdRes.eagain, WaitRes.ready⟩] []).2.2.2.2 rfl).2.2.1⟩

/-! ### End-of-stream flag, invariants and frame conditions -/

/-- C6: fileopen leaves the end-of-stream flag false, but fileattach never
initializes the field (file.c lines 360-373 set fd, ifirst, ilen, olen and
nothing else, while fileopen line 80 sets eof = 0), so with nonzero malloc
garbage in that field a freshly attached channel already reports
end-of-stream: evaluating the code at the failing input shows fileeof true
on a channel no read has ever touched. -/
theorem c6_attach_eof_uninitialized :
    fileeof (fileattach true false) = true ∧ fileeof (fileopen false) = false := by
  decide

/-- fileflush preserves the buffer invariants. -/
theorem fileflush_inv (f : MillFile) (dl : Int) (env : List WrIter) (hInv : Inv f) :
    Inv (fileflush f dl env).f := by
  rcases fileflush_f_cases f dl env with h | h <;> rw [h]
  · exact hInv
  · exact ⟨hInv.1, by simp⟩

/-- The channel after filewrite: buffered append (with its fit guard),
the flush result, or the flush result with a buffered append. -/
theorem filewrite_f_cases (f : MillFile) (data : List Nat) (dl : Int)
    (env : List WrIter) :
    ((filewrite f data dl env).f = { f with obuf := f.obuf ++ data }
        ∧ f.obuf.length + data.length ≤ BUFLEN) ∨
    (filewrite f data dl env).f = (fileflush f dl env).f ∨
    ((filewrite f data dl env).f
        = { (fileflush f dl env).f with obuf := (fileflush f dl env).f.obuf ++ data }
      ∧ (fileflush f dl env).f.obuf.length + data.length ≤ BUFLEN) := by
  unfold filewrite
  by_cases h1 : f.obuf.length + data.length ≤ BUFLEN
  · rw [if_pos h1]; exact Or.inl ⟨rfl, h1⟩
  · rw [if_neg h1]
    by_cases hfe : (fileflush f dl env).err ≠ Err.ok
    · rw [if_pos hfe]; exact Or.inr (Or.inl rfl)
    · rw [if_neg hfe]
      by_cases h2 : (fileflush f dl env).f.obuf.length + data.length ≤ BUFLEN
      · rw [if_pos h2]; exact Or.inr (Or.inr ⟨rfl, h2⟩)
      · rw [if_neg h2]
        cases herr : (writeLoop (fileflush f dl env).f.isReg data.length
            (fileflush f dl env).env).err <;>
          simp only [herr] <;>
          first
            | exact Or.inr (Or.inl rfl)
            | exact Or.inr (Or.inl trivial)

/-- filewrite preserves the buffer invariants. -/
theorem filewrite_inv (f : MillFile) (data : List Nat) (dl : Int) (env : List WrIter)
    (hInv : Inv f) : Inv (filewrite f data dl env).f := by
  rcases filewrite_f_cases f data dl env with ⟨h, hle⟩ | h | ⟨h, hle⟩ <;> rw [h]
  · exact ⟨hInv.1, by simp only [List.length_append]; omega⟩
  · exact fileflush_inv f dl env hInv
  · have h2 := fileflush_inv f dl env hInv
    exact ⟨h2.1, by simp only [List.length_append]; omega⟩

/-- C9: construction, seek, and every channel operation preserve the
buffer invariants inputStart + inputLength ≤ capacity and
outputLength ≤ capacity (the 0 ≤ halves hold by the Nat typing); for the
two read operations this is stated for every POSIX-well-formed run. -/
theorem c9_buffer_invariants (f : MillFile) (len lw hw : Nat) (data : List Nat)
    (dl : Int) (b g1 g2 : Bool) (er el : List RdIter) (ew ef : List WrIter)
    (hInv : Inv f) :
    Inv (fileopen b) ∧
    Inv (fileattach g1 g2) ∧
    Inv (fileseek f) ∧
    Inv (filewrite f data dl ew).f ∧
    Inv (fileflush f dl ef).f ∧
    (wfTrace (fileread f len dl er).tr = true → Inv (fileread f len dl er).f) ∧
    (wfTrace (filereadlh f lw hw dl el).tr = true → Inv (filereadlh f lw hw dl el).f) := by
  refine ⟨⟨by simp [fileopen], by simp [fileopen]⟩,
    ⟨by simp [fileattach], by simp [fileattach]⟩,
    ⟨by simp [fileseek], by simp [fileseek]⟩,
    filewrite_inv f data dl ew hInv, fileflush_inv f dl ef hInv, ?_, ?_⟩
  · unfold fileread
    by_cases hb : len ≤ f.ibuf.length
    · rw [if_pos hb]
      intro _
      refine ⟨?_, hInv.2⟩
      have h1 := hInv.1
      simp only [List.length_drop]
      omega
    · rw [if_neg hb]
      intro hwf
      exact ⟨readLoop_inv f.isReg er _ _ hwf, hInv.2⟩
  · unfold filereadlh
    by_cases h1 : lw ≤ f.ibuf.length ∧ f.ibuf.length ≤ hw
    · rw [if_pos h1]
      intro _
      exact ⟨by simp, hInv.2⟩
    · rw [if_neg h1]
      by_cases h2 : hw ≤ f.ibuf.length
      · rw [if_pos h2]
        intro _
        refine ⟨?_, hInv.2⟩
        have h3 := hInv.1
        simp only [List.length_drop]
        omega
      · rw [if_neg h2]
        intro hwf
        exact ⟨lhLoop_inv f.isReg lw hw el _ _ _ hwf, hInv.2⟩

/-- C9 witness: the invariants at a concrete channel and read run. -/
theorem c9_witness :
    Inv ⟨1, [3], [4], false, false⟩ ∧
    Inv (fileread ⟨1, [3], [4], false, false⟩ 2 0 [⟨RdRes.ok [7, 8], WaitRes.ready⟩]).f :=
  ⟨by decide,
    (c9_buffer_invariants ⟨1, [3], [4], false, false⟩ 2 0 0 [] 0 false false false
        [⟨RdRes.ok [7, 8], WaitRes.ready⟩] [] [] [] (by decide)).2.2.2.2.2.1 (by decide)⟩

/-- fileflush leaves the input buffer and the end-of-stream flag alone. -/
theorem fileflush_frame (f : MillFile) (dl : Int) (env : List WrIter) :
    (fileflush f dl env).f.ibuf = f.ibuf ∧ (fileflush f dl env).f.ifirst = f.ifirst ∧
    (fileflush f dl env).f.eof = f.eof := by
  rcases fileflush_f_cases f dl env with h | h <;> rw [h] <;> exact ⟨rfl, rfl, rfl⟩

/-- filewrite leaves the input buffer and the end-of-stream flag alone. -/
theorem filewrite_frame (f : MillFile) (data : List Nat) (dl : Int) (env : List WrIter) :
    (filewrite f data dl env).f.ibuf = f.ibuf ∧
    (filewrite f data dl env).f.ifirst = f.ifirst ∧
    (filewrite f data dl env).f.eof = f.eof := by
  have hfl := fileflush_frame f dl env
  rcases filewrite_f_cases f data dl env with ⟨h, _⟩ | h | ⟨h, _⟩ <;> rw [h]
  · exact ⟨rfl, rfl, rfl⟩
  · exact hfl
  · exact hfl

/-- C10: direction separation — read and readWatermark leave the output
buffer (pending bytes, hence outputLength) untouched and perform no write
syscall at all, so no read ever implicitly flushes pending output; write
and flush leave the input buffer (inputStart, inputLength, buffered
bytes) and the end-of-stream flag untouched. -/
theorem c10_direction_separation (f : MillFile) (len lw hw : Nat) (data : List Nat)
    (dl : Int) (er el : List RdIter) (ew ef : List WrIter) :
    (fileread f len dl er).f.obuf = f.obuf ∧
    (filereadlh f lw hw dl el).f.obuf = f.obuf ∧
    ((fileread f len dl er).tr.all fun a => !(isWriteA a)) = true ∧
    ((filereadlh f lw hw dl el).tr.all fun a => !(isWriteA a)) = true ∧
    (filewrite f data dl ew).f.ibuf = f.ibuf ∧
    (filewrite f data dl ew).f.ifirst = f.ifirst ∧
    (filewrite f data dl ew).f.eof = f.eof ∧
    (fileflush f dl ef).f.ibuf = f.ibuf ∧
    (fileflush f dl ef).f.ifirst = f.ifirst ∧
    (fileflush f dl ef).f.eof = f.eof := by
  have hw1 := filewrite_frame f data dl ew
  have hf1 := fileflush_frame f dl ef
  refine ⟨?_, ?_, ?_, ?_, hw1.1, hw1.2.1, hw1.2.2, hf1.1, hf1.2.1, hf1.2.2⟩
  · unfold fileread
    by_cases hb : len ≤ f.ibuf.length
    · rw [if_pos hb]
    · rw [if_neg hb]
  · unfold filereadlh
    by_cases h1 : lw ≤ f.ibuf.length ∧ f.ibuf.length ≤ hw
    · rw [if_pos h1]
    · rw [if_neg h1]
      by_cases h2 : hw ≤ f.ibuf.length
      · rw [if_pos h2]
      · rw [if_neg h2]
  · unfold fileread
    by_cases hb : len ≤ f.ibuf.length
    · rw [if_pos hb]; rfl
    · rw [if_neg hb]
      exact readLoop_noWrites f.isReg er _ _
  · unfold filereadlh
    by_cases h1 : lw ≤ f.ibuf.length ∧ f.ibuf.length ≤ hw
    · rw [if_pos h1]; rfl
    · rw [if_neg h1]
      by_cases h2 : hw ≤ f.ibuf.length
      · rw [if_pos h2]; rfl
      · rw [if_neg h2]
        exact lhLoop_noWrites f.isReg lw hw el _ _ _

end CLibvenice
